import Mathlib

/-!
Shallow embedding of the Mini Store Management System (src/store.py).

Modelling choices, kept faithful to the Python source:
- A Python Product object is a record of name, price and stock. Prices are
  Python floats used only with comparison, multiplication and addition; they
  are modelled as rationals. Stock counts and quantities are Python ints,
  modelled as integers.
- Cart items hold a reference to a catalog product; checkout mutates stock
  through that reference and the mutation is visible in the catalog. The
  heap is modelled explicitly: the catalog is the list of products of the
  store, and a product reference is the index of the product in that list.
  getProduct dereferences an index (Python references are always valid, so
  theorems about arbitrary states carry an index-bound hypothesis where the
  value at the index matters).
- The state carries the catalog and the current cart, mirroring the single
  store and the single per-session cart of the program.
- Python str.lower is modelled by lowerStr, the character-wise lowercase
  map over the characters of the string (kernel-reducible, unlike the
  well-founded recursion behind the core library version).
- Methods that print a message and return early on failure are modelled as
  functions returning a success flag together with the new state.
-/

/-- Python str.lower: lowercase every character. -/
def lowerStr (s : String) : String := ⟨s.data.map Char.toLower⟩

structure Product where
  name : String
  price : ℚ
  stock : Int
deriving DecidableEq

structure CartItem where
  productIdx : Nat
  quantity : Int
deriving DecidableEq

structure StoreState where
  products : List Product
  cartItems : List CartItem
deriving DecidableEq

/-- Dereference a product index in the catalog (total, with a default that
never arises for the valid references produced by the program). -/
def getProduct (ps : List Product) (i : Nat) : Product :=
  ps.getD i ⟨"", 0, 0⟩

/-- Total access to a cart item by position (default never used under the
bounds carried by the theorems). -/
def getItem (items : List CartItem) (i : Nat) : CartItem :=
  items.getD i ⟨0, 0⟩

/-- Store.add_product (store.py lines 199-222): reject a non-positive price,
reject a negative stock, otherwise append a new product. -/
def add_product (s : StoreState) (name : String) (price : ℚ) (stock : Int) :
    Bool × StoreState :=
  if price ≤ 0 then (false, s)
  else if stock < 0 then (false, s)
  else (true, { s with products := s.products ++ [⟨name, price, stock⟩] })

/-- Store.find_product (store.py lines 234-247): index of the first product
whose name matches case-insensitively, none if absent. The Python method
returns the product object itself; here the reference is the index. -/
def find_product : List Product → String → Option Nat
  | [], _ => none
  | p :: ps, name =>
    if lowerStr p.name = lowerStr name then some 0
    else (find_product ps name).map (· + 1)

/-- CartItem.get_total_price (store.py lines 62-69): price times quantity. -/
def get_total_price (ps : List Product) (it : CartItem) : ℚ :=
  (getProduct ps it.productIdx).price * it.quantity

/-- Cart.total_price (store.py lines 157-164): sum of the line totals. -/
def total_price (s : StoreState) : ℚ :=
  (s.cartItems.map (get_total_price s.products)).sum

/-- The loop of Cart.add_to_cart (store.py lines 113-125): scan for an item
whose product has the exact same name; on the first such item either fail
(cumulative quantity would exceed stock) or increment it in place; if no
item matches, append a new item at the end. -/
def add_to_cart_items (ps : List Product) (product : Product) (pIdx : Nat)
    (quantity : Int) : List CartItem → Bool × List CartItem
  | [] => (true, [⟨pIdx, quantity⟩])
  | it :: rest =>
    if (getProduct ps it.productIdx).name = product.name then
      if product.stock < it.quantity + quantity then (false, it :: rest)
      else (true, { it with quantity := it.quantity + quantity } :: rest)
    else
      let r := add_to_cart_items ps product pIdx quantity rest
      (r.1, it :: r.2)

/-- Cart.add_to_cart (store.py lines 93-125): reject a non-positive
quantity, reject a quantity above the available stock, then run the scan
loop over the cart items. -/
def add_to_cart (s : StoreState) (pIdx : Nat) (quantity : Int) :
    Bool × StoreState :=
  let product := getProduct s.products pIdx
  if quantity ≤ 0 then (false, s)
  else if product.stock < quantity then (false, s)
  else
    let r := add_to_cart_items s.products product pIdx quantity s.cartItems
    (r.1, { s with cartItems := r.2 })

/-- The loop of Cart.remove_from_cart (store.py lines 137-143): pop the
first item whose product name matches case-insensitively. -/
def remove_items (ps : List Product) (name : String) :
    List CartItem → Bool × List CartItem
  | [] => (false, [])
  | it :: rest =>
    if lowerStr (getProduct ps it.productIdx).name = lowerStr name then
      (true, rest)
    else
      let r := remove_items ps name rest
      (r.1, it :: r.2)

/-- Cart.remove_from_cart (store.py lines 127-143). -/
def remove_from_cart (s : StoreState) (name : String) : Bool × StoreState :=
  let r := remove_items s.products name s.cartItems
  (r.1, { s with cartItems := r.2 })

/-- One stock update of checkout (store.py line 176): decrement the stock of
the product at the given index by the quantity. Out-of-range indices leave
the catalog unchanged (they never arise from the program). -/
def upd_stock (i : Nat) (q : Int) : List Product → List Product
  | [] => []
  | p :: ps =>
    match i with
    | 0 => { p with stock := p.stock - q } :: ps
    | j + 1 => p :: upd_stock j q ps

/-- The stock updates of checkout, item by item in cart order. -/
def checkout_products (items : List CartItem) (ps : List Product) :
    List Product :=
  items.foldl (fun acc it => upd_stock it.productIdx it.quantity acc) ps

/-- Cart.checkout (store.py lines 166-180): fail on an empty cart; otherwise
decrement each referenced stock by the item quantity and clear the cart. -/
def checkout (s : StoreState) : Bool × StoreState :=
  match s.cartItems with
  | [] => (false, s)
  | _ =>
    (true, { products := checkout_products s.cartItems s.products,
             cartItems := [] })

/-- The initial state of the program: empty catalog, empty cart. -/
def init : StoreState := ⟨[], []⟩

/-- One interaction step of the program, as driven by the menus of store.py:
the manager adds a product (add_products_menu, lines 292-310); the customer
adds an item to the cart, where the product argument is always obtained by
find_product on an entered name (customer_menu lines 332-339), removes an
item by name (lines 345-347), or checks out (line 353); ending a customer
session discards the cart and a later session starts with a fresh empty one
(line 314). -/
inductive Step : StoreState → StoreState → Prop
  | step_add_product (s : StoreState) (name : String) (price : ℚ) (stock : Int) :
      Step s (add_product s name price stock).2
  | step_add_to_cart (s : StoreState) (name : String) (q : Int) (i : Nat) :
      find_product s.products name = some i → Step s (add_to_cart s i q).2
  | step_remove_from_cart (s : StoreState) (name : String) :
      Step s (remove_from_cart s name).2
  | step_checkout (s : StoreState) : Step s (checkout s).2
  | step_new_session (s : StoreState) : Step s { s with cartItems := [] }

/-- States reachable from the initial state through the public operations. -/
inductive Reachable : StoreState → Prop
  | refl : Reachable init
  | tail {s s' : StoreState} : Reachable s → Step s s' → Reachable s'

/-! Helper lemmas about catalog access. -/

@[simp]
lemma getProduct_nil (j : Nat) : getProduct [] j = ⟨"", 0, 0⟩ := by
  cases j <;> rfl

@[simp]
lemma getProduct_cons_zero (p : Product) (ps : List Product) :
    getProduct (p :: ps) 0 = p := rfl

@[simp]
lemma getProduct_cons_succ (p : Product) (ps : List Product) (j : Nat) :
    getProduct (p :: ps) (j + 1) = getProduct ps j := rfl

lemma getProduct_append_lt (ps qs : List Product) (j : Nat)
    (h : j < ps.length) : getProduct (ps ++ qs) j = getProduct ps j := by
  induction ps generalizing j with
  | nil => simp at h
  | cons p ps ih =>
    cases j with
    | zero => rfl
    | succ j => exact ih j (Nat.lt_of_succ_lt_succ h)

lemma getProduct_append_len (ps : List Product) (P : Product) :
    getProduct (ps ++ [P]) ps.length = P := by
  induction ps with
  | nil => rfl
  | cons p ps ih => exact ih

@[simp]
lemma getItem_cons_zero (it : CartItem) (l : List CartItem) :
    getItem (it :: l) 0 = it := rfl

@[simp]
lemma getItem_cons_succ (it : CartItem) (l : List CartItem) (j : Nat) :
    getItem (it :: l) (j + 1) = getItem l j := rfl

/-! Helper lemmas about find_product. -/

lemma find_product_lt {ps : List Product} {n : String} {i : Nat}
    (h : find_product ps n = some i) : i < ps.length := by
  induction ps generalizing i with
  | nil => simp [find_product] at h
  | cons p ps ih =>
    rw [find_product] at h
    by_cases hc : lowerStr p.name = lowerStr n
    · rw [if_pos hc] at h
      cases h
      exact Nat.succ_pos _
    · rw [if_neg hc] at h
      cases hf : find_product ps n with
      | none => rw [hf] at h; simp at h
      | some j =>
        rw [hf] at h
        simp at h
        have := ih hf
        simp only [List.length_cons]
        omega

lemma find_product_name {ps : List Product} {n : String} {i : Nat}
    (h : find_product ps n = some i) :
    lowerStr (getProduct ps i).name = lowerStr n := by
  induction ps generalizing i with
  | nil => simp [find_product] at h
  | cons p ps ih =>
    rw [find_product] at h
    by_cases hc : lowerStr p.name = lowerStr n
    · rw [if_pos hc] at h
      cases h
      simpa using hc
    · rw [if_neg hc] at h
      cases hf : find_product ps n with
      | none => rw [hf] at h; simp at h
      | some j =>
        rw [hf] at h
        simp at h
        subst h
        simpa using ih hf

lemma find_product_congr {m n : String} (ps : List Product)
    (h : lowerStr m = lowerStr n) : find_product ps m = find_product ps n := by
  induction ps with
  | nil => rfl
  | cons p ps ih => rw [find_product, find_product, h, ih]

lemma find_product_self {ps : List Product} {n : String} {i : Nat}
    (h : find_product ps n = some i) :
    find_product ps (getProduct ps i).name = some i := by
  rw [find_product_congr ps (find_product_name h)]
  exact h

lemma find_product_append_some {ps : List Product} {n : String} {i : Nat}
    (qs : List Product) (h : find_product ps n = some i) :
    find_product (ps ++ qs) n = some i := by
  induction ps generalizing i with
  | nil => simp [find_product] at h
  | cons p ps ih =>
    rw [find_product] at h
    rw [List.cons_append, find_product]
    by_cases hc : lowerStr p.name = lowerStr n
    · rw [if_pos hc] at h
      rw [if_pos hc]
      exact h
    · rw [if_neg hc] at h
      rw [if_neg hc]
      cases hf : find_product ps n with
      | none => rw [hf] at h; simp at h
      | some j =>
        rw [hf] at h
        rw [ih hf]
        exact h

lemma find_product_none {ps : List Product} {n : String}
    (h : find_product ps n = none) :
    ∀ p ∈ ps, lowerStr p.name ≠ lowerStr n := by
  induction ps with
  | nil => simp
  | cons p ps ih =>
    rw [find_product] at h
    by_cases hc : lowerStr p.name = lowerStr n
    · rw [if_pos hc] at h
      simp at h
    · rw [if_neg hc] at h
      intro x hx
      rcases List.mem_cons.mp hx with hx | hx
      · subst hx
        exact hc
      · cases hf : find_product ps n with
        | none => exact ih hf x hx
        | some j => rw [hf] at h; simp at h

lemma find_product_append_singleton {ps : List Product} {n : String}
    (P : Product) (h : find_product ps n = none)
    (hP : lowerStr P.name = lowerStr n) :
    find_product (ps ++ [P]) n = some ps.length := by
  induction ps with
  | nil => simp [find_product, hP]
  | cons p ps ih =>
    rw [find_product] at h
    by_cases hc : lowerStr p.name = lowerStr n
    · rw [if_pos hc] at h
      simp at h
    · rw [if_neg hc] at h
      rw [List.cons_append, find_product, if_neg hc]
      cases hf : find_product ps n with
      | none => rw [ih hf]; rfl
      | some j => rw [hf] at h; simp at h

/-! Helper lemmas about upd_stock. -/

lemma upd_stock_length (i : Nat) (q : Int) (ps : List Product) :
    (upd_stock i q ps).length = ps.length := by
  induction ps generalizing i with
  | nil => simp [upd_stock]
  | cons p ps ih =>
    cases i with
    | zero => simp [upd_stock]
    | succ j => simpa [upd_stock] using ih j

lemma getProduct_upd_stock (i : Nat) (q : Int) (ps : List Product) (j : Nat) :
    getProduct (upd_stock i q ps) j =
      if i = j ∧ j < ps.length then
        { getProduct ps j with stock := (getProduct ps j).stock - q }
      else getProduct ps j := by
  induction ps generalizing i j with
  | nil => simp [upd_stock]
  | cons p ps ih =>
    cases i with
    | zero =>
      cases j with
      | zero => simp [upd_stock]
      | succ j => simp [upd_stock]
    | succ i =>
      cases j with
      | zero => simp [upd_stock]
      | succ j =>
        rw [upd_stock]
        rw [getProduct_cons_succ, getProduct_cons_succ, ih i j]
        by_cases hij : i = j ∧ j < ps.length
        · rw [if_pos hij,
            if_pos (by simp only [List.length_cons]; omega :
              i + 1 = j + 1 ∧ j + 1 < (p :: ps).length)]
        · rw [if_neg hij,
            if_neg (by simp only [List.length_cons, not_and] at hij ⊢; omega)]

lemma upd_stock_name (i : Nat) (q : Int) (ps : List Product) (j : Nat) :
    (getProduct (upd_stock i q ps) j).name = (getProduct ps j).name := by
  rw [getProduct_upd_stock]
  split <;> rfl

lemma upd_stock_price (i : Nat) (q : Int) (ps : List Product) (j : Nat) :
    (getProduct (upd_stock i q ps) j).price = (getProduct ps j).price := by
  rw [getProduct_upd_stock]
  split <;> rfl

/-! Unfolding and characterization lemmas for the add_to_cart scan loop. -/

lemma add_items_nil (ps : List Product) (P : Product) (pIdx : Nat) (q : Int) :
    add_to_cart_items ps P pIdx q [] = (true, [⟨pIdx, q⟩]) := rfl

lemma add_items_cons_stop {ps : List Product} {P : Product} {pIdx : Nat}
    {q : Int} {it : CartItem} {rest : List CartItem}
    (hc : (getProduct ps it.productIdx).name = P.name)
    (hs : P.stock < it.quantity + q) :
    add_to_cart_items ps P pIdx q (it :: rest) = (false, it :: rest) := by
  simp only [add_to_cart_items, if_pos hc, if_pos hs]

lemma add_items_cons_merge {ps : List Product} {P : Product} {pIdx : Nat}
    {q : Int} {it : CartItem} {rest : List CartItem}
    (hc : (getProduct ps it.productIdx).name = P.name)
    (hs : ¬ P.stock < it.quantity + q) :
    add_to_cart_items ps P pIdx q (it :: rest) =
      (true, { it with quantity := it.quantity + q } :: rest) := by
  simp only [add_to_cart_items, if_pos hc, if_neg hs]

lemma add_items_cons_skip {ps : List Product} {P : Product} {pIdx : Nat}
    {q : Int} {it : CartItem} {rest : List CartItem}
    (hc : ¬ (getProduct ps it.productIdx).name = P.name) :
    add_to_cart_items ps P pIdx q (it :: rest) =
      ((add_to_cart_items ps P pIdx q rest).1,
        it :: (add_to_cart_items ps P pIdx q rest).2) := by
  simp only [add_to_cart_items, if_neg hc]

/-- Full characterization of the scan loop: it either fails leaving the
items unchanged, merges the quantity into the first item whose product has
the exact same name, or appends a fresh item when no name matches. -/
lemma add_items_spec (ps : List Product) (P : Product) (pIdx : Nat) (q : Int)
    (items : List CartItem) :
    ((add_to_cart_items ps P pIdx q items).1 = false ∧
      (add_to_cart_items ps P pIdx q items).2 = items) ∨
    ((add_to_cart_items ps P pIdx q items).1 = true ∧
      ∃ l1 it l2, items = l1 ++ it :: l2 ∧
        (∀ x ∈ l1, (getProduct ps x.productIdx).name ≠ P.name) ∧
        (getProduct ps it.productIdx).name = P.name ∧
        ¬ P.stock < it.quantity + q ∧
        (add_to_cart_items ps P pIdx q items).2 =
          l1 ++ { it with quantity := it.quantity + q } :: l2) ∨
    ((add_to_cart_items ps P pIdx q items).1 = true ∧
      (∀ x ∈ items, (getProduct ps x.productIdx).name ≠ P.name) ∧
      (add_to_cart_items ps P pIdx q items).2 = items ++ [⟨pIdx, q⟩]) := by
  induction items with
  | nil =>
    right; right
    exact ⟨rfl, by simp, rfl⟩
  | cons it rest ih =>
    by_cases hc : (getProduct ps it.productIdx).name = P.name
    · by_cases hs : P.stock < it.quantity + q
      · left
        rw [add_items_cons_stop hc hs]
        exact ⟨rfl, rfl⟩
      · right; left
        rw [add_items_cons_merge hc hs]
        exact ⟨rfl, [], it, rest, rfl, by simp, hc, hs, rfl⟩
    · rcases ih with ⟨h1, h2⟩ | ⟨h1, l1, it', l2, he, hl1, hit, hs, h2⟩ |
        ⟨h1, hall, h2⟩
      · left
        rw [add_items_cons_skip hc, h1, h2]
        exact ⟨rfl, rfl⟩
      · right; left
        rw [add_items_cons_skip hc, h1, h2]
        refine ⟨rfl, it :: l1, it', l2, by rw [he, List.cons_append], ?_, hit,
          hs, by rw [List.cons_append]⟩
        intro x hx
        rcases List.mem_cons.mp hx with hx | hx
        · subst hx; exact hc
        · exact hl1 x hx
      · right; right
        rw [add_items_cons_skip hc, h1, h2]
        refine ⟨rfl, ?_, by rw [List.cons_append]⟩
        intro x hx
        rcases List.mem_cons.mp hx with hx | hx
        · subst hx; exact hc
        · exact hall x hx

lemma add_items_fail_eq {ps : List Product} {P : Product} {pIdx : Nat}
    {q : Int} {items : List CartItem}
    (h : (add_to_cart_items ps P pIdx q items).1 = false) :
    (add_to_cart_items ps P pIdx q items).2 = items := by
  rcases add_items_spec ps P pIdx q items with ⟨_, h2⟩ | ⟨h1, _⟩ | ⟨h1, _⟩
  · exact h2
  · rw [h1] at h; cases h
  · rw [h1] at h; cases h

/-! Unfolding lemmas for the remove_from_cart scan loop. -/

lemma remove_items_nil (ps : List Product) (n : String) :
    remove_items ps n [] = (false, []) := rfl

lemma remove_items_cons_hit {ps : List Product} {n : String} {it : CartItem}
    {rest : List CartItem}
    (hc : lowerStr (getProduct ps it.productIdx).name = lowerStr n) :
    remove_items ps n (it :: rest) = (true, rest) := by
  simp only [remove_items, if_pos hc]

lemma remove_items_cons_skip {ps : List Product} {n : String} {it : CartItem}
    {rest : List CartItem}
    (hc : ¬ lowerStr (getProduct ps it.productIdx).name = lowerStr n) :
    remove_items ps n (it :: rest) =
      ((remove_items ps n rest).1, it :: (remove_items ps n rest).2) := by
  simp only [remove_items, if_neg hc]

/-- The loop removes exactly the first case-insensitive match and keeps
everything else in order. -/
lemma remove_items_first (ps : List Product) (n : String)
    (l1 : List CartItem) (it : CartItem) (l2 : List CartItem)
    (h1 : ∀ x ∈ l1, lowerStr (getProduct ps x.productIdx).name ≠ lowerStr n)
    (h2 : lowerStr (getProduct ps it.productIdx).name = lowerStr n) :
    remove_items ps n (l1 ++ it :: l2) = (true, l1 ++ l2) := by
  induction l1 with
  | nil => simpa using remove_items_cons_hit h2
  | cons x l1 ih =>
    rw [List.cons_append,
      remove_items_cons_skip (h1 x (List.mem_cons_self x l1)),
      ih (fun y hy => h1 y (List.mem_cons_of_mem x hy))]
    rfl

lemma remove_items_sublist (ps : List Product) (n : String)
    (items : List CartItem) : ((remove_items ps n items).2).Sublist items := by
  induction items with
  | nil => rw [remove_items_nil]
  | cons it rest ih =>
    by_cases hc : lowerStr (getProduct ps it.productIdx).name = lowerStr n
    · rw [remove_items_cons_hit hc]
      exact List.sublist_cons_self it rest
    · rw [remove_items_cons_skip hc]
      exact List.Sublist.cons₂ it ih

/-! Lemmas about the stock updates of checkout. -/

lemma checkout_products_nil (ps : List Product) :
    checkout_products [] ps = ps := rfl

lemma checkout_products_cons (it : CartItem) (items : List CartItem)
    (ps : List Product) :
    checkout_products (it :: items) ps =
      checkout_products items (upd_stock it.productIdx it.quantity ps) := rfl

lemma checkout_products_length (items : List CartItem) (ps : List Product) :
    (checkout_products items ps).length = ps.length := by
  induction items generalizing ps with
  | nil => rfl
  | cons it items ih =>
    rw [checkout_products_cons, ih, upd_stock_length]

lemma checkout_products_name (items : List CartItem) (ps : List Product)
    (j : Nat) :
    (getProduct (checkout_products items ps) j).name =
      (getProduct ps j).name := by
  induction items generalizing ps with
  | nil => rfl
  | cons it items ih =>
    rw [checkout_products_cons, ih, upd_stock_name]

lemma checkout_products_price (items : List CartItem) (ps : List Product)
    (j : Nat) :
    (getProduct (checkout_products items ps) j).price =
      (getProduct ps j).price := by
  induction items generalizing ps with
  | nil => rfl
  | cons it items ih =>
    rw [checkout_products_cons, ih, upd_stock_price]

lemma checkout_products_ne (items : List CartItem) (ps : List Product)
    {j : Nat} (h : ∀ it ∈ items, it.productIdx ≠ j) :
    getProduct (checkout_products items ps) j = getProduct ps j := by
  induction items generalizing ps with
  | nil => rfl
  | cons it items ih =>
    rw [checkout_products_cons,
      ih _ (fun x hx => h x (List.mem_cons_of_mem it hx)),
      getProduct_upd_stock,
      if_neg (by
        intro hcon
        exact h it (List.mem_cons_self it items) hcon.1)]

/-- If every catalog stock is non-negative, every item quantity is bounded
by the stock of its referenced product, and no two items reference the same
product, then all stocks stay non-negative after the checkout updates. -/
lemma checkout_products_nonneg (items : List CartItem) (ps : List Product)
    (h0 : ∀ j, j < ps.length → 0 ≤ (getProduct ps j).stock)
    (hnd : items.Pairwise (fun a b => a.productIdx ≠ b.productIdx))
    (hle : ∀ it ∈ items, it.quantity ≤ (getProduct ps it.productIdx).stock) :
    ∀ j, j < ps.length →
      0 ≤ (getProduct (checkout_products items ps) j).stock := by
  induction items generalizing ps with
  | nil => exact h0
  | cons it items ih =>
    intro j hj
    rw [checkout_products_cons]
    rcases List.pairwise_cons.mp hnd with ⟨hne, hnd2⟩
    refine ih (upd_stock it.productIdx it.quantity ps) ?_ hnd2 ?_ j
      (by rw [upd_stock_length]; exact hj)
    · intro k hk
      rw [upd_stock_length] at hk
      rw [getProduct_upd_stock]
      by_cases hik : it.productIdx = k ∧ k < ps.length
      · rw [if_pos hik]
        have hq := hle it (List.mem_cons_self it items)
        rw [hik.1] at hq
        simp only []
        omega
      · rw [if_neg hik]
        exact h0 k hk
    · intro x hx
      rw [getProduct_upd_stock]
      by_cases hxx : it.productIdx = x.productIdx ∧ x.productIdx < ps.length
      · exact absurd hxx.1 (hne x hx)
      · rw [if_neg hxx]
        exact hle x (List.mem_cons_of_mem it hx)

/-! Unfolding lemmas for checkout. -/

lemma checkout_empty {s : StoreState} (h : s.cartItems = []) :
    checkout s = (false, s) := by
  rw [checkout, h]

lemma checkout_cons {s : StoreState} {it : CartItem} {rest : List CartItem}
    (h : s.cartItems = it :: rest) :
    checkout s =
      (true, ⟨checkout_products (it :: rest) s.products, []⟩) := by
  rw [checkout, h]

/-! Unfolding lemmas for add_to_cart and remove_from_cart as a whole. -/

lemma add_to_cart_nonpos {s : StoreState} {i : Nat} {q : Int} (h : q ≤ 0) :
    add_to_cart s i q = (false, s) := by
  simp only [add_to_cart, if_pos h]

lemma add_to_cart_insufficient {s : StoreState} {i : Nat} {q : Int}
    (h1 : ¬ q ≤ 0) (h2 : (getProduct s.products i).stock < q) :
    add_to_cart s i q = (false, s) := by
  simp only [add_to_cart, if_neg h1, if_pos h2]

lemma add_to_cart_run {s : StoreState} {i : Nat} {q : Int}
    (h1 : ¬ q ≤ 0) (h2 : ¬ (getProduct s.products i).stock < q) :
    add_to_cart s i q =
      ((add_to_cart_items s.products (getProduct s.products i) i q
          s.cartItems).1,
        { s with cartItems :=
            (add_to_cart_items s.products (getProduct s.products i) i q
              s.cartItems).2 }) := by
  simp only [add_to_cart, if_neg h1, if_neg h2]

lemma remove_from_cart_eq (s : StoreState) (n : String) :
    remove_from_cart s n =
      ((remove_items s.products n s.cartItems).1,
        { s with cartItems := (remove_items s.products n s.cartItems).2 }) :=
  rfl

/-- The inductive invariant maintained by every interaction step: positive
prices, non-negative stocks, cart items reference valid catalog products
with positive quantities bounded by the stock, every cart item references
the product that find_product yields for its own name (products enter the
cart only through find_product), and no two cart items reference the same
product. -/
structure StoreInv (s : StoreState) : Prop where
  price_pos : ∀ j, j < s.products.length → 0 < (getProduct s.products j).price
  stock_nonneg : ∀ j, j < s.products.length →
    0 ≤ (getProduct s.products j).stock
  idx_lt : ∀ it ∈ s.cartItems, it.productIdx < s.products.length
  qty_pos : ∀ it ∈ s.cartItems, 0 < it.quantity
  qty_le : ∀ it ∈ s.cartItems,
    it.quantity ≤ (getProduct s.products it.productIdx).stock
  first_match : ∀ it ∈ s.cartItems,
    find_product s.products (getProduct s.products it.productIdx).name =
      some it.productIdx
  nodup : s.cartItems.Pairwise (fun a b => a.productIdx ≠ b.productIdx)

lemma Inv_init : StoreInv init := by
  refine ⟨?_, ?_, ?_, ?_, ?_, ?_, ?_⟩ <;> simp [init]

lemma Inv_add_product {s : StoreState} (hs : StoreInv s) (name : String)
    (price : ℚ) (stock : Int) : StoreInv (add_product s name price stock).2 := by
  by_cases h1 : price ≤ 0
  · simp only [add_product, if_pos h1]
    exact hs
  · by_cases h2 : stock < 0
    · simp only [add_product, if_neg h1, if_pos h2]
      exact hs
    · simp only [add_product, if_neg h1, if_neg h2]
      have hlen : (s.products ++ [(⟨name, price, stock⟩ : Product)]).length =
          s.products.length + 1 := by simp
      refine ⟨?_, ?_, ?_, hs.qty_pos, ?_, ?_, hs.nodup⟩
      · intro j hj
        rw [hlen] at hj
        rcases Nat.lt_succ_iff_lt_or_eq.mp hj with hj | hj
        · rw [getProduct_append_lt _ _ _ hj]
          exact hs.price_pos j hj
        · subst hj
          rw [getProduct_append_len]
          exact lt_of_not_le h1
      · intro j hj
        rw [hlen] at hj
        rcases Nat.lt_succ_iff_lt_or_eq.mp hj with hj | hj
        · rw [getProduct_append_lt _ _ _ hj]
          exact hs.stock_nonneg j hj
        · subst hj
          rw [getProduct_append_len]
          exact Int.not_lt.mp h2
      · intro it hit
        rw [hlen]
        exact Nat.lt_succ_of_lt (hs.idx_lt it hit)
      · intro it hit
        rw [getProduct_append_lt _ _ _ (hs.idx_lt it hit)]
        exact hs.qty_le it hit
      · intro it hit
        rw [getProduct_append_lt _ _ _ (hs.idx_lt it hit)]
        exact find_product_append_some _ (hs.first_match it hit)

lemma pairwise_ne_replace {l1 l2 : List CartItem} {it it2 : CartItem}
    (hidx : it2.productIdx = it.productIdx)
    (hp : (l1 ++ it :: l2).Pairwise (fun a b => a.productIdx ≠ b.productIdx)) :
    (l1 ++ it2 :: l2).Pairwise (fun a b => a.productIdx ≠ b.productIdx) := by
  rcases List.pairwise_append.mp hp with ⟨hA, hB, hAB⟩
  rcases List.pairwise_cons.mp hB with ⟨hhd, hl2⟩
  refine List.pairwise_append.mpr
    ⟨hA, List.pairwise_cons.mpr ⟨?_, hl2⟩, ?_⟩
  · intro z hz
    rw [hidx]
    exact hhd z hz
  · intro a ha b hb
    rcases List.mem_cons.mp hb with hb | hb
    · subst hb
      rw [hidx]
      exact hAB a ha it (List.mem_cons_self it l2)
    · exact hAB a ha b (List.mem_cons_of_mem it hb)

lemma Inv_add_to_cart {s : StoreState} (hs : StoreInv s) {name : String}
    {i : Nat} (q : Int) (hf : find_product s.products name = some i) :
    StoreInv (add_to_cart s i q).2 := by
  by_cases h1 : q ≤ 0
  · rw [add_to_cart_nonpos h1]
    exact hs
  · by_cases h2 : (getProduct s.products i).stock < q
    · rw [add_to_cart_insufficient h1 h2]
      exact hs
    · rw [add_to_cart_run h1 h2]
      rcases add_items_spec s.products (getProduct s.products i) i q
          s.cartItems with ⟨_, h4⟩ | ⟨_, l1, it, l2, he, hl1, hit, hle2, h4⟩ |
          ⟨_, hall, h4⟩
      · rw [h4]
        exact hs
      · rw [h4]
        -- the merged item references the same product as the argument
        have hidx : it.productIdx = i := by
          have hm : it ∈ s.cartItems := by
            rw [he]
            exact List.mem_append_right l1 (List.mem_cons_self it l2)
          have h5 := hs.first_match it hm
          rw [hit] at h5
          have h6 := find_product_self hf
          rw [h5] at h6
          exact (Option.some.injEq _ _).mp h6
        have hmem : ∀ x ∈ l1 ++
            ({ it with quantity := it.quantity + q } : CartItem) :: l2,
            x ∈ s.cartItems ∨ x = { it with quantity := it.quantity + q } := by
          intro x hx
          rcases List.mem_append.mp hx with hx | hx
          · exact Or.inl (by rw [he]; exact List.mem_append_left _ hx)
          · rcases List.mem_cons.mp hx with hx | hx
            · exact Or.inr hx
            · exact Or.inl
                (by rw [he]
                    exact List.mem_append_right l1
                      (List.mem_cons_of_mem it hx))
        have hm : it ∈ s.cartItems := by
          rw [he]
          exact List.mem_append_right l1 (List.mem_cons_self it l2)
        refine ⟨hs.price_pos, hs.stock_nonneg, ?_, ?_, ?_, ?_, ?_⟩
        · intro x hx
          rcases hmem x hx with hx | hx
          · exact hs.idx_lt x hx
          · subst hx
            exact hs.idx_lt it hm
        · intro x hx
          rcases hmem x hx with hx | hx
          · exact hs.qty_pos x hx
          · subst hx
            have := hs.qty_pos it hm
            have := lt_of_not_le h1
            simp only []
            omega
        · intro x hx
          rcases hmem x hx with hx | hx
          · exact hs.qty_le x hx
          · subst hx
            simp only []
            rw [hidx]
            exact Int.not_lt.mp hle2
        · intro x hx
          rcases hmem x hx with hx | hx
          · exact hs.first_match x hx
          · subst hx
            exact hs.first_match it hm
        · have hnd : (l1 ++ it :: l2).Pairwise
              (fun a b => a.productIdx ≠ b.productIdx) := by
            rw [← he]
            exact hs.nodup
          exact pairwise_ne_replace
            (show ({ it with quantity := it.quantity + q } : CartItem).productIdx
                = it.productIdx from rfl) hnd
      · rw [h4]
        have hmem : ∀ x ∈ s.cartItems ++ [(⟨i, q⟩ : CartItem)],
            x ∈ s.cartItems ∨ x = (⟨i, q⟩ : CartItem) := by
          intro x hx
          rcases List.mem_append.mp hx with hx | hx
          · exact Or.inl hx
          · exact Or.inr (List.mem_singleton.mp hx)
        refine ⟨hs.price_pos, hs.stock_nonneg, ?_, ?_, ?_, ?_, ?_⟩
        · intro x hx
          rcases hmem x hx with hx | hx
          · exact hs.idx_lt x hx
          · subst hx
            exact find_product_lt hf
        · intro x hx
          rcases hmem x hx with hx | hx
          · exact hs.qty_pos x hx
          · subst hx
            exact lt_of_not_le h1
        · intro x hx
          rcases hmem x hx with hx | hx
          · exact hs.qty_le x hx
          · subst hx
            exact Int.not_lt.mp h2
        · intro x hx
          rcases hmem x hx with hx | hx
          · exact hs.first_match x hx
          · subst hx
            exact find_product_self hf
        · refine List.pairwise_append.mpr ⟨hs.nodup, List.pairwise_singleton _ _, ?_⟩
          intro a ha b hb
          rcases List.mem_singleton.mp hb with rfl
          intro hcon
          exact hall a ha (by rw [hcon])

lemma Inv_remove_from_cart {s : StoreState} (hs : StoreInv s) (n : String) :
    StoreInv (remove_from_cart s n).2 := by
  rw [remove_from_cart_eq]
  have hsub := remove_items_sublist s.products n s.cartItems
  have hmem : ∀ x ∈ (remove_items s.products n s.cartItems).2,
      x ∈ s.cartItems := fun x hx => hsub.subset hx
  exact ⟨hs.price_pos, hs.stock_nonneg,
    fun x hx => hs.idx_lt x (hmem x hx),
    fun x hx => hs.qty_pos x (hmem x hx),
    fun x hx => hs.qty_le x (hmem x hx),
    fun x hx => hs.first_match x (hmem x hx),
    hs.nodup.sublist hsub⟩

lemma Inv_checkout {s : StoreState} (hs : StoreInv s) : StoreInv (checkout s).2 := by
  cases hcart : s.cartItems with
  | nil =>
    rw [checkout_empty hcart]
    exact hs
  | cons it rest =>
    rw [checkout_cons hcart]
    have hlen : (checkout_products (it :: rest) s.products).length =
        s.products.length := checkout_products_length _ _
    refine ⟨?_, ?_, ?_, ?_, ?_, ?_, ?_⟩
    · intro j hj
      rw [hlen] at hj
      have h := hs.price_pos j hj
      have hp := checkout_products_price (it :: rest) s.products j
      simp only [] at hp ⊢
      rw [hp]
      exact h
    · intro j hj
      rw [hlen] at hj
      exact checkout_products_nonneg (it :: rest) s.products hs.stock_nonneg
        (hcart ▸ hs.nodup) (fun x hx => hs.qty_le x (hcart ▸ hx)) j hj
    · intro x hx
      simp at hx
    · intro x hx
      simp at hx
    · intro x hx
      simp at hx
    · intro x hx
      simp at hx
    · simp

lemma Inv_step {s t : StoreState} (hs : StoreInv s) (h : Step s t) : StoreInv t := by
  cases h with
  | step_add_product name price stock =>
    exact Inv_add_product hs name price stock
  | step_add_to_cart name q i hf => exact Inv_add_to_cart hs q hf
  | step_remove_from_cart name => exact Inv_remove_from_cart hs name
  | step_checkout => exact Inv_checkout hs
  | step_new_session =>
    exact ⟨hs.price_pos, hs.stock_nonneg, by simp, by simp, by simp, by simp,
      by simp⟩

lemma reachable_inv {s : StoreState} (h : Reachable s) : StoreInv s := by
  induction h with
  | refl => exact Inv_init
  | tail _ hstep ih => exact Inv_step ih hstep

/-! Further helper lemmas used by the claim theorems. -/

lemma add_to_cart_run_fst {s : StoreState} {i : Nat} {q : Int}
    (h1 : ¬ q ≤ 0) (h2 : ¬ (getProduct s.products i).stock < q) :
    (add_to_cart s i q).1 =
      (add_to_cart_items s.products (getProduct s.products i) i q
        s.cartItems).1 := by
  rw [add_to_cart_run h1 h2]

lemma add_to_cart_run_snd {s : StoreState} {i : Nat} {q : Int}
    (h1 : ¬ q ≤ 0) (h2 : ¬ (getProduct s.products i).stock < q) :
    (add_to_cart s i q).2 =
      { s with cartItems :=
          (add_to_cart_items s.products (getProduct s.products i) i q
            s.cartItems).2 } := by
  rw [add_to_cart_run h1 h2]

lemma getProduct_mem {ps : List Product} {j : Nat} (h : j < ps.length) :
    getProduct ps j ∈ ps := by
  induction ps generalizing j with
  | nil => simp at h
  | cons p ps ih =>
    cases j with
    | zero => exact List.mem_cons_self p ps
    | succ j =>
      exact List.mem_cons_of_mem p (ih (Nat.lt_of_succ_lt_succ h))

lemma mem_getProduct {ps : List Product} {p : Product} (h : p ∈ ps) :
    ∃ j, j < ps.length ∧ getProduct ps j = p := by
  induction ps with
  | nil => simp at h
  | cons x ps ih =>
    rcases List.mem_cons.mp h with h | h
    · exact ⟨0, Nat.succ_pos _, h.symm⟩
    · rcases ih h with ⟨j, hj, hg⟩
      exact ⟨j + 1, Nat.succ_lt_succ hj, hg⟩

lemma getItem_mem {l : List CartItem} {j : Nat} (h : j < l.length) :
    getItem l j ∈ l := by
  induction l generalizing j with
  | nil => simp at h
  | cons x l ih =>
    cases j with
    | zero => exact List.mem_cons_self x l
    | succ j =>
      exact List.mem_cons_of_mem x (ih (Nat.lt_of_succ_lt_succ h))

lemma pairwise_getItem {l : List CartItem}
    (hp : l.Pairwise (fun a b => a.productIdx ≠ b.productIdx)) {a b : Nat}
    (hab : a < b) (hb : b < l.length) :
    (getItem l a).productIdx ≠ (getItem l b).productIdx := by
  induction l generalizing a b with
  | nil => simp at hb
  | cons x l ih =>
    rcases List.pairwise_cons.mp hp with ⟨hx, hl⟩
    cases a with
    | zero =>
      cases b with
      | zero => omega
      | succ b =>
        exact hx _ (getItem_mem (Nat.lt_of_succ_lt_succ hb))
    | succ a =>
      cases b with
      | zero => omega
      | succ b =>
        exact ih hl (Nat.lt_of_succ_lt_succ hab) (Nat.lt_of_succ_lt_succ hb)

/-- The quantity of the given product already in the cart: the quantity of
the first cart item whose product has the exact same name, 0 when no item
matches. Under the cart invariant there is at most one item per product, so
this is the cumulative quantity of that product in the cart. -/
def existing_qty (ps : List Product) (pname : String) :
    List CartItem → Int
  | [] => 0
  | it :: rest =>
    if (getProduct ps it.productIdx).name = pname then it.quantity
    else existing_qty ps pname rest

lemma existing_qty_first {ps : List Product} {pname : String}
    {l1 : List CartItem} {it : CartItem} {l2 : List CartItem}
    (hl1 : ∀ x ∈ l1, (getProduct ps x.productIdx).name ≠ pname)
    (hit : (getProduct ps it.productIdx).name = pname) :
    existing_qty ps pname (l1 ++ it :: l2) = it.quantity := by
  induction l1 with
  | nil => simp [existing_qty, hit]
  | cons x l1 ih =>
    rw [List.cons_append, existing_qty,
      if_neg (hl1 x (List.mem_cons_self x l1))]
    exact ih (fun y hy => hl1 y (List.mem_cons_of_mem x hy))

lemma existing_qty_zero {ps : List Product} {pname : String}
    {l : List CartItem}
    (h : ∀ x ∈ l, (getProduct ps x.productIdx).name ≠ pname) :
    existing_qty ps pname l = 0 := by
  induction l with
  | nil => rfl
  | cons x l ih =>
    rw [existing_qty, if_neg (h x (List.mem_cons_self x l))]
    exact ih (fun y hy => h y (List.mem_cons_of_mem x hy))

/-! The claims. -/

/-- Claim C1: checkout on a cart holding exactly two items over distinct
products decrements the stock of the first product by exactly the first
quantity and the stock of the second by exactly the second quantity, leaves
every other product untouched, empties the cart, and the total price of the
cart afterwards is 0. Products are references into the catalog; distinct
products means distinct references. -/
theorem checkout_two_items (s : StoreState) (i j : Nat) (q1 q2 : Int)
    (hij : i ≠ j) (hi : i < s.products.length) (hj : j < s.products.length)
    (hc : s.cartItems = [⟨i, q1⟩, ⟨j, q2⟩]) :
    (checkout s).1 = true ∧
    (checkout s).2.cartItems = [] ∧
    getProduct (checkout s).2.products i =
      { getProduct s.products i with
          stock := (getProduct s.products i).stock - q1 } ∧
    getProduct (checkout s).2.products j =
      { getProduct s.products j with
          stock := (getProduct s.products j).stock - q2 } ∧
    (∀ k, k ≠ i → k ≠ j →
      getProduct (checkout s).2.products k = getProduct s.products k) ∧
    total_price (checkout s).2 = 0 := by
  have h2 : checkout s =
      (true, ⟨upd_stock j q2 (upd_stock i q1 s.products), []⟩) := by
    rw [checkout_cons hc, checkout_products_cons, checkout_products_cons,
      checkout_products_nil]
  rw [h2]
  refine ⟨rfl, rfl, ?_, ?_, ?_, rfl⟩
  · rw [getProduct_upd_stock, if_neg (fun hcon => hij hcon.1.symm),
      getProduct_upd_stock, if_pos ⟨rfl, hi⟩]
  · rw [getProduct_upd_stock, upd_stock_length, if_pos ⟨rfl, hj⟩,
      getProduct_upd_stock, if_neg (fun hcon => hij hcon.1)]
  · intro k hk1 hk2
    rw [getProduct_upd_stock, if_neg (fun hcon => hk2 hcon.1.symm),
      getProduct_upd_stock, if_neg (fun hcon => hk1 hcon.1.symm)]

/-- Witness for C1 at a concrete state: three products, two in the cart. -/
theorem checkout_two_items_witness :
    (checkout ⟨[⟨"a", 1, 5⟩, ⟨"b", 2, 7⟩, ⟨"c", 3, 9⟩],
        [⟨0, 2⟩, ⟨1, 3⟩]⟩).1 = true ∧
    (checkout ⟨[⟨"a", 1, 5⟩, ⟨"b", 2, 7⟩, ⟨"c", 3, 9⟩],
        [⟨0, 2⟩, ⟨1, 3⟩]⟩).2.cartItems = [] ∧
    getProduct (checkout ⟨[⟨"a", 1, 5⟩, ⟨"b", 2, 7⟩, ⟨"c", 3, 9⟩],
        [⟨0, 2⟩, ⟨1, 3⟩]⟩).2.products 0 = ⟨"a", 1, 3⟩ ∧
    getProduct (checkout ⟨[⟨"a", 1, 5⟩, ⟨"b", 2, 7⟩, ⟨"c", 3, 9⟩],
        [⟨0, 2⟩, ⟨1, 3⟩]⟩).2.products 1 = ⟨"b", 2, 4⟩ ∧
    getProduct (checkout ⟨[⟨"a", 1, 5⟩, ⟨"b", 2, 7⟩, ⟨"c", 3, 9⟩],
        [⟨0, 2⟩, ⟨1, 3⟩]⟩).2.products 2 = ⟨"c", 3, 9⟩ ∧
    total_price (checkout ⟨[⟨"a", 1, 5⟩, ⟨"b", 2, 7⟩, ⟨"c", 3, 9⟩],
        [⟨0, 2⟩, ⟨1, 3⟩]⟩).2 = 0 := by
  have h := checkout_two_items
    ⟨[⟨"a", 1, 5⟩, ⟨"b", 2, 7⟩, ⟨"c", 3, 9⟩], [⟨0, 2⟩, ⟨1, 3⟩]⟩ 0 1 2 3
    (by decide) (by decide) (by decide) rfl
  refine ⟨h.1, h.2.1, ?_, ?_, ?_, h.2.2.2.2.2⟩
  · exact h.2.2.1.trans (by decide)
  · exact h.2.2.2.1.trans (by decide)
  · exact (h.2.2.2.2.1 2 (by decide) (by decide)).trans (by decide)

/-- Claim C6: add_product with a non-positive price or a negative stock
fails and leaves the catalog unchanged, in particular of unchanged
length. -/
theorem add_product_invalid (s : StoreState) (name : String) (price : ℚ)
    (stock : Int) (h : price ≤ 0 ∨ stock < 0) :
    (add_product s name price stock).1 = false ∧
    (add_product s name price stock).2 = s ∧
    (add_product s name price stock).2.products.length =
      s.products.length := by
  have he : add_product s name price stock = (false, s) := by
    by_cases h1 : price ≤ 0
    · simp only [add_product, if_pos h1]
    · have h2 : stock < 0 := h.resolve_left h1
      simp only [add_product, if_neg h1, if_pos h2]
  rw [he]
  exact ⟨rfl, rfl, rfl⟩

/-- Witness for C6: the price -5 scenario of the spec. -/
theorem add_product_invalid_witness :
    (add_product ⟨[⟨"a", 1, 5⟩], []⟩ "x" (-5) 3).1 = false ∧
    (add_product ⟨[⟨"a", 1, 5⟩], []⟩ "x" (-5) 3).2 = ⟨[⟨"a", 1, 5⟩], []⟩ ∧
    (add_product ⟨[⟨"a", 1, 5⟩], []⟩ "x" (-5) 3).2.products.length =
      (⟨[⟨"a", 1, 5⟩], []⟩ : StoreState).products.length :=
  add_product_invalid ⟨[⟨"a", 1, 5⟩], []⟩ "x" (-5) 3 (Or.inl (by decide))

/-- Claim C7: add_to_cart with a non-positive quantity, or with a quantity
that together with the quantity of that product already in the cart exceeds
the stock of the product, fails and leaves the whole state (in particular
the cart) exactly unchanged. -/
theorem add_to_cart_rejected (s : StoreState) (i : Nat) (q : Int)
    (h : q ≤ 0 ∨ (getProduct s.products i).stock <
      existing_qty s.products (getProduct s.products i).name s.cartItems
        + q) :
    add_to_cart s i q = (false, s) := by
  by_cases h1 : q ≤ 0
  · exact add_to_cart_nonpos h1
  · have h := h.resolve_left h1
    by_cases h2 : (getProduct s.products i).stock < q
    · exact add_to_cart_insufficient h1 h2
    · rw [add_to_cart_run h1 h2]
      rcases add_items_spec s.products (getProduct s.products i) i q
          s.cartItems with ⟨hflag, heq⟩ |
          ⟨_, l1, it, l2, he, hl1, hit, hle2, _⟩ | ⟨_, hall, _⟩
      · rw [hflag, heq]
      · exfalso
        have hex : existing_qty s.products (getProduct s.products i).name
            s.cartItems = it.quantity := by
          rw [he]
          exact existing_qty_first hl1 hit
        rw [hex] at h
        exact hle2 h
      · exfalso
        have hex : existing_qty s.products (getProduct s.products i).name
            s.cartItems = 0 := existing_qty_zero hall
        rw [hex] at h
        omega

/-- Witness for C7: the spec scenario of adding 4 more Laptops when 2 of 5
are already in the cart. -/
theorem add_to_cart_rejected_witness :
    add_to_cart ⟨[⟨"Laptop", 1200, 5⟩], [⟨0, 2⟩]⟩ 0 4 =
      (false, ⟨[⟨"Laptop", 1200, 5⟩], [⟨0, 2⟩]⟩) :=
  add_to_cart_rejected ⟨[⟨"Laptop", 1200, 5⟩], [⟨0, 2⟩]⟩ 0 4
    (Or.inr (by decide))

/-- Claim C8: checkout on an empty cart fails, changes nothing (every stock
in the catalog is unchanged), and the cart stays empty. -/
theorem checkout_empty_cart (s : StoreState) (h : s.cartItems = []) :
    (checkout s).1 = false ∧ (checkout s).2 = s ∧
    (checkout s).2.products = s.products ∧ (checkout s).2.cartItems = [] := by
  rw [checkout_empty h]
  exact ⟨rfl, rfl, rfl, h⟩

/-- Witness for C8 on a catalog with one product. -/
theorem checkout_empty_cart_witness :
    (checkout ⟨[⟨"a", 1, 5⟩], []⟩).1 = false ∧
    (checkout ⟨[⟨"a", 1, 5⟩], []⟩).2 = ⟨[⟨"a", 1, 5⟩], []⟩ ∧
    (checkout ⟨[⟨"a", 1, 5⟩], []⟩).2.products = [⟨"a", 1, 5⟩] ∧
    (checkout ⟨[⟨"a", 1, 5⟩], []⟩).2.cartItems = [] :=
  checkout_empty_cart ⟨[⟨"a", 1, 5⟩], []⟩ rfl

/-- Claim C9: add_to_cart, whether it succeeds or fails, never changes the
catalog (in particular no stock); remove_from_cart does not either; and
add_product leaves every pre-existing product unchanged. Only checkout
mutates stock. -/
theorem stock_mutated_only_by_checkout (s : StoreState) (i : Nat) (q : Int)
    (n name : String) (price : ℚ) (stock : Int) (j : Nat)
    (hj : j < s.products.length) :
    (add_to_cart s i q).2.products = s.products ∧
    (remove_from_cart s n).2.products = s.products ∧
    getProduct (add_product s name price stock).2.products j =
      getProduct s.products j := by
  refine ⟨?_, rfl, ?_⟩
  · by_cases h1 : q ≤ 0
    · rw [add_to_cart_nonpos h1]
    · by_cases h2 : (getProduct s.products i).stock < q
      · rw [add_to_cart_insufficient h1 h2]
      · rw [add_to_cart_run h1 h2]
  · by_cases h1 : price ≤ 0
    · simp only [add_product, if_pos h1]
    · by_cases h2 : stock < 0
      · simp only [add_product, if_neg h1, if_pos h2]
      · simp only [add_product, if_neg h1, if_neg h2]
        exact getProduct_append_lt _ _ _ hj

/-- Witness for C9 at a concrete state and inputs. -/
theorem stock_mutated_only_by_checkout_witness :
    (add_to_cart ⟨[⟨"a", 1, 5⟩], []⟩ 0 2).2.products = [⟨"a", 1, 5⟩] ∧
    (remove_from_cart ⟨[⟨"a", 1, 5⟩], []⟩ "a").2.products = [⟨"a", 1, 5⟩] ∧
    getProduct
      (add_product ⟨[⟨"a", 1, 5⟩], []⟩ "b" 2 7).2.products 0 =
      getProduct [⟨"a", 1, 5⟩] 0 :=
  stock_mutated_only_by_checkout ⟨[⟨"a", 1, 5⟩], []⟩ 0 2 "a" "b" 2 7 0
    (by decide)

/-- Claim C10: remove_from_cart removes exactly the first cart item whose
product name matches the given name case-insensitively; every other item,
matching or not, stays in its original relative order. -/
theorem remove_from_cart_first_match (s : StoreState) (n : String)
    (l1 : List CartItem) (it : CartItem) (l2 : List CartItem)
    (he : s.cartItems = l1 ++ it :: l2)
    (h1 : ∀ x ∈ l1,
      lowerStr (getProduct s.products x.productIdx).name ≠ lowerStr n)
    (h2 : lowerStr (getProduct s.products it.productIdx).name = lowerStr n) :
    remove_from_cart s n = (true, { s with cartItems := l1 ++ l2 }) := by
  rw [remove_from_cart_eq, he,
    remove_items_first s.products n l1 it l2 h1 h2]

/-- Witness for C10: two case-insensitive matches in the cart; only the
first is removed, the second and the non-matching item stay in order. -/
theorem remove_from_cart_first_match_witness :
    remove_from_cart
        ⟨[⟨"Pen", 1, 5⟩, ⟨"PEN", 2, 5⟩, ⟨"Ink", 3, 5⟩],
          [⟨2, 1⟩, ⟨0, 1⟩, ⟨1, 1⟩]⟩ "pen" =
      (true, ⟨[⟨"Pen", 1, 5⟩, ⟨"PEN", 2, 5⟩, ⟨"Ink", 3, 5⟩],
          [⟨2, 1⟩, ⟨1, 1⟩]⟩) :=
  remove_from_cart_first_match
    ⟨[⟨"Pen", 1, 5⟩, ⟨"PEN", 2, 5⟩, ⟨"Ink", 3, 5⟩],
      [⟨2, 1⟩, ⟨0, 1⟩, ⟨1, 1⟩]⟩ "pen"
    [⟨2, 1⟩] ⟨0, 1⟩ [⟨1, 1⟩] rfl (by decide) (by decide)

/-- Claim C2 exactly as stated: in every reachable state every product has
a non-empty name, a positive price and a non-negative stock. -/
def claim_C2 : Prop :=
  ∀ s : StoreState, Reachable s → ∀ p ∈ s.products,
    p.name ≠ "" ∧ 0 < p.price ∧ 0 ≤ p.stock

/-- Counterexample to C2: add_product accepts the empty name (it validates
only price and stock), so a product with an empty name is reachable. -/
theorem reachable_empty_name_product : ¬ claim_C2 := by
  intro h
  have hr : Reachable ⟨[⟨"", 1, 0⟩], []⟩ := by
    have h1 := Reachable.tail Reachable.refl
      (Step.step_add_product init "" 1 0)
    rw [(by decide : (add_product init "" 1 0).2 =
      ⟨[⟨"", 1, 0⟩], []⟩)] at h1
    exact h1
  exact (h _ hr ⟨"", 1, 0⟩ (by decide)).1 rfl

/-- Claim C2 amended: in every reachable state every product has a positive
price and a non-negative stock (the name may be empty: add_product never
validates it). -/
theorem reachable_price_pos_stock_nonneg (s : StoreState)
    (h : Reachable s) : ∀ p ∈ s.products, 0 < p.price ∧ 0 ≤ p.stock := by
  intro p hp
  have hinv := reachable_inv h
  rcases mem_getProduct hp with ⟨j, hj, hg⟩
  rw [← hg]
  exact ⟨hinv.price_pos j hj, hinv.stock_nonneg j hj⟩

/-- Witness for amended C2 at a concrete reachable state. -/
theorem reachable_price_pos_stock_nonneg_witness :
    0 < (⟨"a", 1, 2⟩ : Product).price ∧
    0 ≤ (⟨"a", 1, 2⟩ : Product).stock := by
  have hr : Reachable ⟨[⟨"a", 1, 2⟩], []⟩ := by
    have h1 := Reachable.tail Reachable.refl
      (Step.step_add_product init "a" 1 2)
    rw [(by decide : (add_product init "a" 1 2).2 =
      ⟨[⟨"a", 1, 2⟩], []⟩)] at h1
    exact h1
  exact reachable_price_pos_stock_nonneg _ hr ⟨"a", 1, 2⟩ (by decide)

/-- Claim C3: in every reachable state the cart holds at most one item per
distinct product, products identified by case-insensitive name: two items
at different positions of the cart always have case-insensitively different
product names. -/
theorem cart_at_most_one_item_per_product (s : StoreState)
    (h : Reachable s) (a b : Nat) (hab : a < b)
    (hb : b < s.cartItems.length) :
    lowerStr (getProduct s.products (getItem s.cartItems a).productIdx).name
      ≠
    lowerStr (getProduct s.products
      (getItem s.cartItems b).productIdx).name := by
  have hinv := reachable_inv h
  have hne := pairwise_getItem hinv.nodup hab hb
  have hma : getItem s.cartItems a ∈ s.cartItems :=
    getItem_mem (lt_trans hab hb)
  have hmb : getItem s.cartItems b ∈ s.cartItems := getItem_mem hb
  intro hcon
  have h1 := hinv.first_match _ hma
  have h2 := hinv.first_match _ hmb
  have h3 := find_product_congr s.products hcon
  rw [h1, h2] at h3
  exact hne ((Option.some.injEq _ _).mp h3)

/-- Witness for C3 at a concrete reachable state with a two-item cart. -/
theorem cart_at_most_one_item_per_product_witness :
    lowerStr (getProduct [⟨"a", 1, 5⟩, ⟨"b", 2, 5⟩]
      (getItem [⟨0, 1⟩, ⟨1, 1⟩] 0).productIdx).name ≠
    lowerStr (getProduct [⟨"a", 1, 5⟩, ⟨"b", 2, 5⟩]
      (getItem [⟨0, 1⟩, ⟨1, 1⟩] 1).productIdx).name := by
  have h1 := Reachable.tail Reachable.refl
    (Step.step_add_product init "a" 1 5)
  rw [(by decide : (add_product init "a" 1 5).2 =
    ⟨[⟨"a", 1, 5⟩], []⟩)] at h1
  have h2 := Reachable.tail h1
    (Step.step_add_product ⟨[⟨"a", 1, 5⟩], []⟩ "b" 2 5)
  rw [(by decide : (add_product ⟨[⟨"a", 1, 5⟩], []⟩ "b" 2 5).2 =
    ⟨[⟨"a", 1, 5⟩, ⟨"b", 2, 5⟩], []⟩)] at h2
  have h3 := Reachable.tail h2
    (Step.step_add_to_cart ⟨[⟨"a", 1, 5⟩, ⟨"b", 2, 5⟩], []⟩ "a" 1 0
      (by decide))
  rw [(by decide : (add_to_cart ⟨[⟨"a", 1, 5⟩, ⟨"b", 2, 5⟩], []⟩ 0 1).2 =
    ⟨[⟨"a", 1, 5⟩, ⟨"b", 2, 5⟩], [⟨0, 1⟩]⟩)] at h3
  have h4 := Reachable.tail h3
    (Step.step_add_to_cart ⟨[⟨"a", 1, 5⟩, ⟨"b", 2, 5⟩], [⟨0, 1⟩]⟩ "b" 1 1
      (by decide))
  rw [(by decide :
    (add_to_cart ⟨[⟨"a", 1, 5⟩, ⟨"b", 2, 5⟩], [⟨0, 1⟩]⟩ 1 1).2 =
    ⟨[⟨"a", 1, 5⟩, ⟨"b", 2, 5⟩], [⟨0, 1⟩, ⟨1, 1⟩]⟩)] at h4
  exact cart_at_most_one_item_per_product _ h4 0 1 (by decide) (by decide)

/-- Claim C4 exactly as stated: after any successful add_to_cart of a
product, remove_from_cart of the name of that product restores the state
before the add. -/
def claim_C4 : Prop :=
  ∀ (s : StoreState) (i : Nat) (q : Int),
    (add_to_cart s i q).1 = true →
    (remove_from_cart (add_to_cart s i q).2
      (getProduct s.products i).name).2 = s

/-- Counterexample to C4: when the product is already in the cart, the add
merges into the existing item and the removal then deletes the whole item,
losing the pre-existing quantity. Concretely: cart holds 1 unit, add 1 more
(success, cart holds 2), remove leaves an empty cart, not 1 unit. -/
theorem add_remove_not_inverse : ¬ claim_C4 := by
  intro h
  have := h ⟨[⟨"a", 1, 5⟩], [⟨0, 1⟩]⟩ 0 1 (by decide)
  exact absurd this (by decide)

/-- Claim C4 amended: if no item of the cart matches the product name
case-insensitively before the add (in particular the product itself is not
yet in the cart), then a successful add_to_cart followed by
remove_from_cart of the product name restores the state before the add,
and the removal reports success. -/
theorem add_remove_inverse_of_fresh (s : StoreState) (i : Nat) (q : Int)
    (hfresh : ∀ x ∈ s.cartItems,
      lowerStr (getProduct s.products x.productIdx).name ≠
        lowerStr (getProduct s.products i).name)
    (hadd : (add_to_cart s i q).1 = true) :
    remove_from_cart (add_to_cart s i q).2 (getProduct s.products i).name =
      (true, s) := by
  by_cases h1 : q ≤ 0
  · rw [add_to_cart_nonpos h1] at hadd
    cases hadd
  · by_cases h2 : (getProduct s.products i).stock < q
    · rw [add_to_cart_insufficient h1 h2] at hadd
      cases hadd
    · rw [add_to_cart_run_fst h1 h2] at hadd
      rw [add_to_cart_run_snd h1 h2]
      rcases add_items_spec s.products (getProduct s.products i) i q
          s.cartItems with ⟨hflag, _⟩ |
          ⟨_, l1, it, l2, he, _, hit, _, _⟩ | ⟨_, _, h4⟩
      · rw [hflag] at hadd
        cases hadd
      · exfalso
        have hm : it ∈ s.cartItems := by
          rw [he]
          exact List.mem_append_right l1 (List.mem_cons_self it l2)
        exact hfresh it hm (by rw [hit])
      · rw [h4, remove_from_cart_eq]
        have hri := remove_items_first s.products
          (getProduct s.products i).name s.cartItems ⟨i, q⟩ [] hfresh rfl
        rw [List.append_nil] at hri
        rw [hri]

/-- Witness for amended C4: adding to an empty cart, then removing. -/
theorem add_remove_inverse_of_fresh_witness :
    remove_from_cart (add_to_cart ⟨[⟨"a", 1, 5⟩], []⟩ 0 2).2
      (getProduct (⟨[⟨"a", 1, 5⟩], []⟩ : StoreState).products 0).name =
      (true, ⟨[⟨"a", 1, 5⟩], []⟩) :=
  add_remove_inverse_of_fresh ⟨[⟨"a", 1, 5⟩], []⟩ 0 2 (by decide)
    (by decide)

/-- Claim C5 exactly as stated: for every catalog state and valid triple,
add_product succeeds and find_product of that name afterwards returns a
product carrying the just-added price and stock. -/
def claim_C5 : Prop :=
  ∀ (s : StoreState) (name : String) (price : ℚ) (stock : Int),
    0 < price → 0 ≤ stock →
    (add_product s name price stock).1 = true ∧
    ∃ k, find_product (add_product s name price stock).2.products name =
        some k ∧
      (getProduct (add_product s name price stock).2.products k).price =
        price ∧
      (getProduct (add_product s name price stock).2.products k).stock =
        stock

/-- Counterexample to C5: find_product returns the FIRST case-insensitive
match in insertion order, so when the catalog already holds a product of
the same name the lookup returns the older product, not the one just
added. Concretely: catalog holds (a, price 1, stock 1); add (a, price 2,
stock 5) succeeds, but find_product yields the old product with price 1. -/
theorem find_product_shadows_new_product : ¬ claim_C5 := by
  intro h
  rcases (h ⟨[⟨"a", 1, 1⟩], []⟩ "a" 2 5 (by decide) (by decide)).2 with
    ⟨k, hk, hprice, _⟩
  rw [(by decide :
    find_product (add_product ⟨[⟨"a", 1, 1⟩], []⟩ "a" 2 5).2.products "a" =
      some 0)] at hk
  have hk0 : k = 0 := ((Option.some.injEq _ _).mp hk).symm
  subst hk0
  rw [(by decide :
    (getProduct (add_product ⟨[⟨"a", 1, 1⟩], []⟩ "a" 2 5).2.products
      0).price = 1)] at hprice
  exact absurd hprice (by decide)

/-- Claim C5 amended: if no product of the catalog matches the name
case-insensitively yet, then add_product with a valid price and stock
succeeds and find_product of that name afterwards returns exactly the
just-added product (the first and only match, at the end of the
catalog). -/
theorem add_product_then_find (s : StoreState) (name : String) (price : ℚ)
    (stock : Int) (hp : 0 < price) (hst : 0 ≤ stock)
    (hnew : find_product s.products name = none) :
    (add_product s name price stock).1 = true ∧
    find_product (add_product s name price stock).2.products name =
      some s.products.length ∧
    getProduct (add_product s name price stock).2.products
      s.products.length = ⟨name, price, stock⟩ := by
  have h1 : ¬ price ≤ 0 := not_le.mpr hp
  have h2 : ¬ stock < 0 := not_lt.mpr hst
  have he : add_product s name price stock =
      (true, { s with products :=
        s.products ++ [⟨name, price, stock⟩] }) := by
    simp only [add_product, if_neg h1, if_neg h2]
  rw [he]
  exact ⟨rfl, find_product_append_singleton _ hnew rfl,
    getProduct_append_len _ _⟩

/-- Witness for amended C5: the Laptop of the seeded catalog, added to the
empty initial catalog. -/
theorem add_product_then_find_witness :
    (add_product init "Laptop" 1200 5).1 = true ∧
    find_product (add_product init "Laptop" 1200 5).2.products "Laptop" =
      some init.products.length ∧
    getProduct (add_product init "Laptop" 1200 5).2.products
      init.products.length = ⟨"Laptop", 1200, 5⟩ :=
  add_product_then_find init "Laptop" 1200 5 (by decide) (by decide)
    (by decide)
